import Mathlib

namespace ExmuzzyMcp

/-!
Verification of the issue-relationship hierarchy builder of the exmuzzy-mcp
repository (src/services/issueService.ts), together with the transition and
completion operations.  JavaScript record maps (Record<string, string[]>) are
embedded as insertion-ordered association lists, JS Set as an
insertion-ordered duplicate-free list, and the suspending fetch collaborators
as explicit environment functions String → Option record.  Fallible remote
calls return Option (none = the call threw and was caught by the service).
-/

/-- Worker for jsSet: keep every element not seen before, in order. -/
def jsSetAux (seen : List String) : List String → List String
  | [] => []
  | x :: xs => if x ∈ seen then jsSetAux seen xs else x :: jsSetAux (x :: seen) xs

/-- Insertion-order deduplication, the behaviour of Array.from(new Set(l))
in the source: the first occurrence of each element is kept, in order. -/
def jsSet (l : List String) : List String := jsSetAux [] l

/-- Lookup in a Record<string, string[]>: the children list stored under a
key, or [] when the key is absent (the source always guards reads with
m[key] || []). -/
def lookupChildren (m : List (String × List String)) (k : String) : List String :=
  match m.find? (fun p => p.1 == k) with
  | some p => p.2
  | none => []

/-- Source pattern: if (!m[k]) m[k] = []; if (!m[k].includes(v)) m[k].push(v).
New keys are appended (JS object insertion order); an existing entry keeps
its position. -/
def mapPushGuard (m : List (String × List String)) (k v : String) :
    List (String × List String) :=
  match m with
  | [] => [(k, [v])]
  | (k0, vs) :: rest =>
    if k0 = k then (if v ∈ vs then (k0, vs) :: rest else (k0, vs ++ [v]) :: rest)
    else (k0, vs) :: mapPushGuard rest k v

/-- Source pattern without the includes guard (the forest epic-map push):
if (!m[k]) m[k] = []; m[k].push(v). -/
def mapPushPlain (m : List (String × List String)) (k v : String) :
    List (String × List String) :=
  match m with
  | [] => [(k, [v])]
  | (k0, vs) :: rest =>
    if k0 = k then (k0, vs ++ [v]) :: rest
    else (k0, vs) :: mapPushPlain rest k v

/-- Membership of a key in an ordered JS-set list; appends when absent. -/
def setAdd (l : List String) (k : String) : List String :=
  if k ∈ l then l else l ++ [k]

/-- char-list startsWith, used by the substring test below. -/
def listStartsWith : List Char → List Char → Bool
  | _, [] => true
  | [], _ :: _ => false
  | a :: as, b :: bs => a == b && listStartsWith as bs

/-- Substring containment, the behaviour of JavaScript String.includes. -/
def listHasSub : List Char → List Char → Bool
  | hay, pat =>
    match hay with
    | [] => pat.isEmpty
    | _ :: t => listStartsWith hay pat || listHasSub t pat

/-- s.includes(pat) of the source. -/
def strContains (s pat : String) : Bool := listHasSub s.data pat.data

/-- s.toLowerCase() of the source; every string the hierarchy and
transition code lowercases is ASCII, so the per-character ASCII lowering
is the exact behaviour. -/
def strLower (s : String) : String := ⟨s.data.map Char.toLower⟩

/-!
## The tree renderer (buildTreeLines)

Both hierarchy modes share an identical local function buildTreeLines
(issueService.ts lines 1190-1233 and 1790-1833).  It threads one mutable
visited set through a depth-first walk and emits two text lines per node; we
abstract the emitted text to the sequence of emitted issue keys, which is
what all the claims quantify over.  The function is embedded with a fuel
parameter; every theorem below either holds for every fuel or takes fuel
large enough (the JavaScript recursion depth is bounded by the number of
keys present in the issue map, so fuel = present.length + 2 reproduces the
source behaviour exactly).
-/

/-- The data buildTreeLines reads: the two link adjacency maps and the set
of keys that have an issueMap record (a node absent from issueMap is marked
visited and emits nothing). -/
structure RenderCtx where
  coversMap : List (String × List String)
  parentMap : List (String × List String)
  present : List String
deriving DecidableEq

/-- Child enumeration of the renderer (lines 1218-1220 / 1818-1820):
Array.from(new Set([...coversMap[key] || [], ...parentMap[key] || []])). -/
def childrenOf (ctx : RenderCtx) (k : String) : List String :=
  jsSet (lookupChildren ctx.coversMap k ++ lookupChildren ctx.parentMap k)

/-- Sequential processing of a list of keys, threading the visited set, and
concatenating the emitted key sequences; this is the for-loop shape used
both for the children of a node and for the per-epic issue loops. -/
def chainSteps (step : List String → String → List String × List String) :
    List String → List String → List String × List String
  | [], visited => ([], visited)
  | c :: cs, visited =>
    let r1 := step visited c
    let r2 := chainSteps step cs r1.2
    (r1.1 ++ r2.1, r2.2)

/-- buildTreeLines, abstracted to emitted keys.  Returns (emitted keys,
visited set after the call).  The source order of operations is kept: the
visited check, then visited.add(key), then the issueMap presence check, then
the children loop. -/
def walkF (ctx : RenderCtx) : Nat → List String → String → List String × List String
  | 0, visited, _ => ([], visited)
  | fuel + 1, visited, key =>
    if key ∈ visited then ([], visited)
    else
      let v1 := key :: visited
      if key ∈ ctx.present then
        let r := chainSteps (fun v c => walkF ctx fuel v c) (childrenOf ctx key) v1
        (key :: r.1, r.2)
      else ([], v1)

/-- The inductive invariant of one visited-set-threaded walk starting from
visited set v with result r = (emitted, visitedAfter): the visited set is
monotone, the emitted keys are duplicate-free, every emitted key is newly
visited and present, and every newly visited present key is emitted. -/
def WalkInv (P : String → Prop) (v : List String) (r : List String × List String) : Prop :=
  (∀ x, x ∈ v → x ∈ r.2) ∧ r.1.Nodup ∧
  (∀ x, x ∈ r.1 → x ∈ r.2 ∧ x ∉ v ∧ P x) ∧
  (∀ x, x ∈ r.2 → x ∉ v → P x → x ∈ r.1)

/-!
## Data model of raw issue records

The grouping field (customfield_10102) arrives from the remote API as a JSON
value; the source discriminates three shapes: a plain string, an object
(checked for a string key field, then a string id field, then string
coercion via toString, which every JS object has), and any other value.  The
value universe is embedded accordingly; key and id fields are modelled as
optional strings. -/
inductive EpicLink where
  | elStr (s : String)
  | elObj (keyField : Option String) (idField : Option String) (toStr : String)
  | elNum (n : Int)
deriving DecidableEq

/-- JavaScript truthiness of the grouping value: an empty string and the
number 0 are falsy, every object is truthy. -/
def jsTruthyEL : EpicLink → Bool
  | .elStr s => s ≠ ""
  | .elObj _ _ _ => true
  | .elNum n => n ≠ 0

/-- The linked-issue payload embedded in a typed link (inwardIssue /
outwardIssue): a key plus the already-embedded partial fields, of which the
hierarchy code reads only the issue type name. -/
structure LStub where
  key : String
  typName : Option String
deriving DecidableEq

/-- A typed issue link as the hierarchy code reads it: the link type id,
name, inward and outward phrases, and the two optional linked-issue
payloads. -/
structure Link where
  typeId : String
  typeName : String
  inward : String
  outward : String
  inwardIssue : Option LStub
  outwardIssue : Option LStub
deriving DecidableEq

/-!
## Rooted mode: the recursive fetch (getIssueHierarchyFromRoot)

fetchIssueHierarchy (lines 1608-1732) is a depth-counted recursive fetch
guarded by one visited set.  The remote issue repository is an environment
env : String → Option RIssue (none = getIssue threw; the body catches and
continues).  The source checks depth > maxDepth before anything else;
embedding with gas = maxDepth + 1 - depth makes that check gas = 0.  Besides
the four adjacency-building phases we record every single-key lookup issued,
in order, in the lookups field. -/
structure RIssue where
  epicLink : Option EpicLink
  links : List Link
deriving DecidableEq

structure CrawlState where
  visited : List String
  lookups : List String
  issueMap : List (String × RIssue)
  epicMap : List (String × List String)
  coversMap : List (String × List String)
  parentMap : List (String × List String)
deriving DecidableEq

/-- Rooted-mode grouping key extraction (line 1628):
typeof epicLink === string ? epicLink : epicLink.key. -/
def rootedEpicKey : EpicLink → Option String
  | .elStr s => some s
  | .elObj k _ _ => k
  | .elNum _ => none

def pushEpic (ek key : String) (s : CrawlState) : CrawlState :=
  { s with epicMap := mapPushGuard s.epicMap ek key }

/-- Lines 1626-1641: push the grouping edge (guarded includes) and recurse
into the group node when includeEpic is set and it is unvisited. -/
def procEpic (step : String → CrawlState → CrawlState) (inc : Bool)
    (key : String) (r : RIssue) (s : CrawlState) : CrawlState :=
  match r.epicLink with
  | none => s
  | some el =>
    if jsTruthyEL el then
      match rootedEpicKey el with
      | some ek =>
        if ek ≠ "" then
          if inc ∧ ek ∉ (pushEpic ek key s).visited then step ek (pushEpic ek key s)
          else pushEpic ek key s
        else s
      | none => s
    else s

/-- One adjacency-recording phase shared by the four link cases: guard on
nonempty keys, push the edge, recurse into rk when unvisited. -/
def edgePhase (step : String → CrawlState → CrawlState)
    (upd : CrawlState → CrawlState) (pk ck rk : String) (s : CrawlState) : CrawlState :=
  if pk ≠ "" ∧ ck ≠ "" then
    if rk ∉ (upd s).visited then step rk (upd s) else upd s
  else s

def pushCovers (pk ck : String) (s : CrawlState) : CrawlState :=
  { s with coversMap := mapPushGuard s.coversMap pk ck }

def pushParent (pk ck : String) (s : CrawlState) : CrawlState :=
  { s with parentMap := mapPushGuard s.parentMap pk ck }

/-- The shared shape of each direction case: if the payload side is present
and its phrase matches, run the phase; otherwise leave the state alone. -/
def stubPhase (os : Option LStub) (go : Bool)
    (act : LStub → CrawlState → CrawlState) (s : CrawlState) : CrawlState :=
  match os with
  | some o => if go then act o s else s
  | none => s

/-- Lines 1653-1688: the Coverage half of one typed link (id 10703 or name
containing requirement), outward covers first, then inward covered by. -/
def coversPart (step : String → CrawlState → CrawlState) (key : String)
    (l : Link) (s : CrawlState) : CrawlState :=
  if l.typeId == "10703" || strContains (strLower l.typeName) "requirement" then
    stubPhase l.inwardIssue (strContains (strLower l.inward) "covered by")
      (fun i => edgePhase step (pushCovers i.key key) i.key key i.key)
      (stubPhase l.outwardIssue (strContains (strLower l.outward) "covers")
        (fun o => edgePhase step (pushCovers key o.key) key o.key o.key) s)
  else s

/-- Lines 1691-1726: the Containment half (id 10600 or name containing
parent), outward is-parent-of first, then inward is-child-of. -/
def parentPart (step : String → CrawlState → CrawlState) (key : String)
    (l : Link) (s : CrawlState) : CrawlState :=
  if l.typeId == "10600" || strContains (strLower l.typeName) "parent" then
    stubPhase l.inwardIssue (strContains (strLower l.inward) "is child of")
      (fun i => edgePhase step (pushParent i.key key) i.key key i.key)
      (stubPhase l.outwardIssue (strContains (strLower l.outward) "is parent of")
        (fun o => edgePhase step (pushParent key o.key) key o.key o.key) s)
  else s

/-- Lines 1645-1727: classification and direction resolution of one typed
link; the Coverage cases run before the Containment cases, as in the body of
the for-loop. -/
def procLink (step : String → CrawlState → CrawlState) (key : String)
    (l : Link) (s : CrawlState) : CrawlState :=
  parentPart step key l (coversPart step key l s)

def procLinks (step : String → CrawlState → CrawlState) (key : String) :
    List Link → CrawlState → CrawlState
  | [], s => s
  | l :: ls, s => procLinks step key ls (procLink step key l s)

/-- The key is marked visited and the single-key lookup recorded; in the
source this is visited.add(key) directly followed by the getIssue call. -/
def markVisit (key : String) (s : CrawlState) : CrawlState :=
  { s with visited := key :: s.visited, lookups := s.lookups ++ [key] }

def recordIssue (key : String) (r : RIssue) (s : CrawlState) : CrawlState :=
  { s with issueMap := s.issueMap ++ [(key, r)] }

/-- fetchIssueHierarchy.  gas = maxDepth + 1 - depth; the initial call is
crawl env inc (maxDepth + 1) rootKey.  A failed fetch (env = none) leaves
the key visited but unrecorded, exactly as the catch clause does. -/
def crawl (env : String → Option RIssue) (inc : Bool)
    (gas : Nat) (key : String) (s : CrawlState) : CrawlState :=
  match gas with
  | 0 => s
  | gas' + 1 =>
    if key ∈ s.visited then s
    else
      match env key with
      | none => markVisit key s
      | some r =>
        procLinks (fun k st => crawl env inc gas' k st) key r.links
          (procEpic (fun k st => crawl env inc gas' k st) inc key r
            (recordIssue key r (markVisit key s)))

/-- Invariant of a crawl state: the issued lookups are pairwise distinct and
all marked visited, and every issueMap record came from a successful fetch. -/
def CrawlInv (env : String → Option RIssue) (s : CrawlState) : Prop :=
  s.lookups.Nodup ∧ (∀ k, k ∈ s.lookups → k ∈ s.visited) ∧
  (∀ p, p ∈ s.issueMap → env p.1 = some p.2)

/-- Growth relation between crawl states: visited and issueMap only grow. -/
def CrawlRel (s t : CrawlState) : Prop :=
  (∀ x, x ∈ s.visited → x ∈ t.visited) ∧ (∀ p, p ∈ s.issueMap → p ∈ t.issueMap)

/-- A step function that, from any invariant state, preserves the invariant
and only grows the state. -/
def GoodStep (env : String → Option RIssue) (step : String → CrawlState → CrawlState) : Prop :=
  ∀ k st, CrawlInv env st → CrawlInv env (step k st) ∧ CrawlRel st (step k st)

/-- An update that only touches the adjacency maps. -/
def MapOnly (upd : CrawlState → CrawlState) : Prop :=
  ∀ st, (upd st).visited = st.visited ∧ (upd st).lookups = st.lookups ∧
    (upd st).issueMap = st.issueMap

/-- The initial build-pass state of one call. -/
def initialCrawlState : CrawlState := ⟨[], [], [], [], [], []⟩

/-- Result of getIssueHierarchyFromRoot, abstracted to the rendered key
sequence; notFound is the early-return Issue Not Found case (lines
1836-1846). -/
structure RootedResult where
  notFound : Bool
  renderedKeys : List String
  lookups : List String
deriving DecidableEq

/-- getIssueHierarchyFromRoot (lines 1592-1877).  maxDepth defaults via
params.maxDepth || 10 (so an absent or zero parameter becomes 10); the
crawl starts at depth 0, and the rendering walk runs with one visited set
over the assembled maps, with fuel bounded by the number of fetched
records. -/
def maxDepthOf (maxDepthParam : Option Nat) : Nat :=
  match maxDepthParam with
  | none => 10
  | some d => if d = 0 then 10 else d

/-- The whole crawl of one rooted call, starting at depth 0 from a fresh
state. -/
def rootedCrawl (env : String → Option RIssue) (rootKey : String)
    (maxDepthParam : Option Nat) (inc : Bool) : CrawlState :=
  crawl env inc (maxDepthOf maxDepthParam + 1) rootKey initialCrawlState

/-- The renderer context assembled from a finished crawl. -/
def rootedCtx (s : CrawlState) : RenderCtx :=
  ⟨s.coversMap, s.parentMap, s.issueMap.map (fun p => p.1)⟩

def rootedBuild (env : String → Option RIssue) (rootKey : String)
    (maxDepthParam : Option Nat) (inc : Bool) : RootedResult :=
  match (rootedCrawl env rootKey maxDepthParam inc).issueMap.find?
      (fun p => p.1 == rootKey) with
  | none =>
    { notFound := true, renderedKeys := [],
      lookups := (rootedCrawl env rootKey maxDepthParam inc).lookups }
  | some _ =>
    { notFound := false,
      renderedKeys := (walkF (rootedCtx (rootedCrawl env rootKey maxDepthParam inc))
        ((rootedCrawl env rootKey maxDepthParam inc).issueMap.length + 2) [] rootKey).1,
      lookups := (rootedCrawl env rootKey maxDepthParam inc).lookups }

/-!
## Forest mode: getIssueHierarchy (lines 906-1590)

The two searchIssues calls are opaque inputs (the list of records each
returned); the per-key epic fetch is an environment function.  An issue
record carries the pieces the hierarchy code reads: key, issue type name,
grouping field, typed links. -/
structure FIssue where
  key : String
  typName : Option String
  epicLink : Option EpicLink
  links : List Link
deriving DecidableEq

/-- What one issueMap slot retains that later forest steps read: the issue
type name (tasks-without-epic filter) and the raw grouping field. -/
structure Entry where
  typName : Option String
  epicLink : Option EpicLink
deriving DecidableEq

def entryOf (i : FIssue) : Entry := ⟨i.typName, i.epicLink⟩

/-- A stub registered from an embedded linked-issue payload (fields only,
no grouping field in the payload). -/
def stubEntry (st : LStub) : Entry := ⟨st.typName, none⟩

def entryEpicTruthy (en : Entry) : Bool :=
  match en.epicLink with
  | some el => jsTruthyEL el
  | none => false

/-- Generic JS object assignment m[k] = v: replace in place or append. -/
def jsAssign {α : Type} (m : List (String × α)) (k : String) (v : α) :
    List (String × α) :=
  match m with
  | [] => [(k, v)]
  | (k0, v0) :: rest =>
    if k0 = k then (k0, v) :: rest else (k0, v0) :: jsAssign rest k v

def hasKey {α : Type} (m : List (String × α)) (k : String) : Bool :=
  (m.find? (fun p => p.1 == k)).isSome

def lookupVals {α : Type} (m : List (String × List α)) (k : String) : List α :=
  match m.find? (fun p => p.1 == k) with
  | some p => p.2
  | none => []

/-- Generic guarded push (if (!m[k]) m[k] = []; if no duplicate, push). -/
def valsPushGuard {α : Type} [DecidableEq α] (m : List (String × List α))
    (k : String) (v : α) : List (String × List α) :=
  match m with
  | [] => [(k, [v])]
  | (k0, vs) :: rest =>
    if k0 = k then (if v ∈ vs then (k0, vs) :: rest else (k0, vs ++ [v]) :: rest)
    else (k0, vs) :: valsPushGuard rest k v

/-- First-pass grouping-key extraction (lines 943-950): a string is taken
as the key; an object with a truthy key field yields it, any other object
falls through to string coercion; other values yield nothing. -/
def epicKeyPass1 : EpicLink → Option String
  | .elStr s => some s
  | .elObj k _ t =>
    match k with
    | some ks => if ks ≠ "" then some ks else some t
    | none => some t
  | .elNum _ => none

/-- Accumulate one record into the epicKeysToFetch set (lines 941-954):
outer truthiness of the field, extraction, truthiness of the result. -/
def collectEpicKey (acc : List String) (el? : Option EpicLink) : List String :=
  match el? with
  | none => acc
  | some el =>
    if jsTruthyEL el then
      match epicKeyPass1 el with
      | some ek => if ek ≠ "" then setAdd acc ek else acc
      | none => acc
    else acc

/-- Second-pass grouping-key extraction (lines 1009-1024): string; object
with a string key field; else a string id field; else string coercion
(every object has toString); other values yield nothing. -/
def epicKeyPass2 : EpicLink → Option String
  | .elStr s => some s
  | .elObj k i t =>
    match k with
    | some ks => some ks
    | none =>
      match i with
      | some ids => some ids
      | none => some t
  | .elNum _ => none

/-- Lines 1006-1036: the grouping edge step of the relationship pass; the
push carries no includes guard (each record is processed once), and new
group keys are appended to the map. -/
def forestEpicStep (m : List (String × List String)) (key : String)
    (el? : Option EpicLink) : List (String × List String) :=
  match el? with
  | none => m
  | some el =>
    if jsTruthyEL el then
      match epicKeyPass2 el with
      | some ek => if ek ≠ "" then mapPushPlain m ek key else m
      | none => m
    else m

/-- The decode-once view of the grouping field: the key the relationship
pass will emit an edge for, or none when the field is absent, falsy, or
yields no truthy key. -/
def groupKeyOf (el? : Option EpicLink) : Option String :=
  match el? with
  | none => none
  | some el =>
    if jsTruthyEL el then
      match epicKeyPass2 el with
      | some ek => if ek = "" then none else some ek
      | none => none
    else none

/-- Forest build-pass state: the node registry and the three adjacency
maps. -/
structure FState where
  issueMap : List (String × Entry)
  epicMap : List (String × List String)
  coversMap : List (String × List String)
  parentMap : List (String × List String)
deriving DecidableEq

/-- Stub registration: if (!issueMap[k]) issueMap[k] = payload. -/
def fStubAdd (m : List (String × Entry)) (st : LStub) : List (String × Entry) :=
  if hasKey m st.key then m else m ++ [(st.key, stubEntry st)]

/-- Lines 1047-1089: the Coverage half of one link in the forest pass;
records the edge (guarded) and a stub for the far endpoint. -/
def fCoversPart (key : String) (l : Link) (s : FState) : FState :=
  if l.typeId == "10703" || strContains (strLower l.typeName) "requirement" then
    let s1 :=
      match l.outwardIssue with
      | some o =>
        if strContains (strLower l.outward) "covers" then
          if key ≠ "" ∧ o.key ≠ "" then
            { s with coversMap := mapPushGuard s.coversMap key o.key,
                     issueMap := fStubAdd s.issueMap o }
          else s
        else s
      | none => s
    match l.inwardIssue with
    | some i =>
      if strContains (strLower l.inward) "covered by" then
        if i.key ≠ "" ∧ key ≠ "" then
          { s1 with coversMap := mapPushGuard s1.coversMap i.key key,
                    issueMap := fStubAdd s1.issueMap i }
        else s1
      else s1
    | none => s1
  else s

/-- Lines 1091-1133: the Containment half of one link in the forest pass. -/
def fParentPart (key : String) (l : Link) (s : FState) : FState :=
  if l.typeId == "10600" || strContains (strLower l.typeName) "parent" then
    let s1 :=
      match l.outwardIssue with
      | some o =>
        if strContains (strLower l.outward) "is parent of" then
          if key ≠ "" ∧ o.key ≠ "" then
            { s with parentMap := mapPushGuard s.parentMap key o.key,
                     issueMap := fStubAdd s.issueMap o }
          else s
        else s
      | none => s
    match l.inwardIssue with
    | some i =>
      if strContains (strLower l.inward) "is child of" then
        if i.key ≠ "" ∧ key ≠ "" then
          { s1 with parentMap := mapPushGuard s1.parentMap i.key key,
                    issueMap := fStubAdd s1.issueMap i }
        else s1
      else s1
    | none => s1
  else s

def forestLink (key : String) (l : Link) (s : FState) : FState :=
  fParentPart key l (fCoversPart key l s)

/-- The relationship pass (lines 1002-1135) over the original query result:
grouping edge first, then each typed link. -/
def forestRelPass (issues : List FIssue) (s : FState) : FState :=
  issues.foldl (fun s i =>
    i.links.foldl (fun s l => forestLink i.key l s)
      { s with epicMap := forestEpicStep s.epicMap i.key i.epicLink }) s

/-- Lines 929-999: working set from the query, epic-key collection, the
epic query merge, and the per-key epic fetch loop.  Returns the assembled
state and the list of single-key lookups issued (= epicsToFetch, every
element of which gets exactly one getIssue call, successful or not). -/
def forestAssemble (issues epicSearch : List FIssue)
    (epicFetch : String → Option FIssue) : FState × List String :=
  let im0 := issues.foldl (fun m i => jsAssign m i.key (entryOf i)) []
  let ek0 := issues.foldl (fun acc i => collectEpicKey acc i.epicLink) []
  let im1 := epicSearch.foldl
    (fun m e => if hasKey m e.key then m else m ++ [(e.key, entryOf e)]) im0
  let ek1 := epicSearch.foldl (fun acc e => setAdd acc e.key) ek0
  let fetched := epicSearch.map (fun e => e.key)
  let toFetch := ek1.filter (fun k => !(fetched.contains k))
  let im2 := toFetch.foldl (fun m k =>
    match epicFetch k with
    | some e => if hasKey m k then m else m ++ [(k, entryOf e)]
    | none => m) im1
  (forestRelPass issues ⟨im2, [], [], []⟩, toFetch)

/-- Object.keys(epicMap).filter(key => epicMap[key] && epicMap[key].length > 0)
(line 1237). -/
def allEpicKeysOf (s : FState) : List String :=
  (s.epicMap.map (fun p => p.1)).filter
    (fun k => !(lookupChildren s.epicMap k).isEmpty)

/-!
## Folder overlay (lines 1239-1336)

One structure hierarchy (id 138) is fetched; every failure of that call is
caught, so the overlay input is an Except.  Elements carry id, name,
summary, parentId, issueKey and the three folder markers the source checks
disjunctively. -/
structure SElement where
  id : String
  name : Option String
  summary : Option String
  parentId : Option String
  issueKey : Option String
  typ : Option String
  folderFlag : Bool
  elementType : Option String
deriving DecidableEq

/-- JS truthiness of an optional string field. -/
def optTruthy : Option String → Bool
  | none => false
  | some s => s ≠ ""

/-- !element.issueKey && (element.type === folder || element.folder === true
|| element.elementType === folder)  (lines 1258 and 1273). -/
def isFolder (e : SElement) : Bool :=
  !(optTruthy e.issueKey) &&
    (e.typ == some "folder" || e.folderFlag || e.elementType == some "folder")

/-- a || b || dflt over optional strings. -/
def jsOrOpt (a : Option String) (d : String) : String :=
  match a with
  | some s => if s ≠ "" then s else d
  | none => d

def folderName (e : SElement) : String :=
  jsOrOpt e.name (jsOrOpt e.summary "Unnamed Folder")

/-- element.parentId || null. -/
def normParent (e : SElement) : Option String :=
  match e.parentId with
  | some p => if p ≠ "" then some p else none
  | none => none

/-- folderInfoMap (lines 1254-1266): id → (name, parentId) for folder
elements, in element order. -/
def folderInfoOf (elements : List SElement) : List (String × (String × Option String)) :=
  elements.foldl (fun m e =>
    if isFolder e then jsAssign m e.id (folderName e, normParent e) else m) []

/-- getFolderPath (lines 1269-1285): the root-to-leaf list of ancestor
folder names, walking parentId links.  The source recursion has no cycle
guard (the topology is assumed a strict tree); the embedding bounds it with
fuel, which at elements.length covers every acyclic chain. -/
def getFolderPath (elements : List SElement)
    (finfo : List (String × (String × Option String))) :
    Nat → String → List String
  | 0, _ => []
  | fuel + 1, eid =>
    match elements.find? (fun e => e.id == eid) with
    | none => []
    | some el =>
      if isFolder el then
        match finfo.find? (fun p => p.1 == eid) with
        | none => []
        | some p =>
          match p.2.2 with
          | some pid => getFolderPath elements finfo fuel pid ++ [p.2.1]
          | none => [p.2.1]
      else []

/-- The catch clause of the overlay fetch (lines 1324-1336): a 404 is
silently skipped, any other error message is collected.  The statusCode
check of the source is observable here only through the message text. -/
def overlayErr (e : String) :
    List (String × List (String × String)) × List (String × List String) × List String :=
  if strContains e "404" || strContains e "Not Found" then ([], [], [])
  else ([], [], ["Структура 138: " ++ e])

/-- The success path of the overlay (lines 1252-1323): map every element
carrying an issue key of interest to its folder path. -/
def overlayOk (hasIssue : String → Bool) (allEpicKeys : List String)
    (elements : List SElement) :
    List (String × List (String × String)) × List (String × List String) × List String :=
  if elements.isEmpty then ([], [], [])
  else
    let finfo := folderInfoOf elements
    let r : List (String × List (String × String)) × List (String × List String) :=
      elements.foldl (fun acc e =>
        match e.issueKey with
        | none => acc
        | some ik =>
          if ik ≠ "" then
            if hasIssue ik || allEpicKeys.contains ik then
              match normParent e with
              | some pid =>
                let path := getFolderPath elements finfo elements.length pid
                if path ≠ [] then
                  (valsPushGuard acc.1 (path.getLastD "") (pid, "138"),
                   valsPushGuard acc.2 ik (String.intercalate " → " path))
                else acc
              | none => acc
            else acc
          else acc) ([], [])
    (r.1, r.2, [])

/-- The overlay (lines 1247-1336): on success, the folderMap and the
issue-to-folder-path map; on failure, both empty, plus the collected error
strings. -/
def overlayRun (hasIssue : String → Bool) (allEpicKeys : List String)
    (structRes : Except String (List SElement)) :
    List (String × List (String × String)) × List (String × List String) × List String :=
  match structRes with
  | .error e => overlayErr e
  | .ok elements => overlayOk hasIssue allEpicKeys elements

/-- folderToEpicsMap push with the epicKey-based duplicate guard
(lines 1396-1402). -/
def pushEpicData (m : List (String × List (String × List String)))
    (fn : String) (ed : String × List String) :
    List (String × List (String × List String)) :=
  match m with
  | [] => [(fn, [ed])]
  | (k0, vs) :: rest =>
    if k0 = fn then
      if vs.any (fun e => e.1 == ed.1) then (k0, vs) :: rest
      else (k0, vs ++ [ed]) :: rest
    else (k0, vs) :: pushEpicData rest fn ed

/-- The top-level folder of a stored path string (folderPath.split(' → ')[0],
lines 1375 and 1385). -/
def topFolderOf (p : String) : String := (p.splitOn " → ").headD ""

/-- The top-level folders attached to one epic (lines 1370-1389): first
those of the epic itself, then those of its member issues, as an ordered
set. -/
def epicFoldersOf (epicMap : List (String × List String))
    (i2f : List (String × List String)) (ek : String) : List String :=
  (lookupChildren epicMap ek).foldl (fun fs ik =>
    (lookupChildren i2f ik).foldl (fun fs p => setAdd fs (topFolderOf p)) fs)
    ((lookupChildren i2f ek).foldl (fun fs p => setAdd fs (topFolderOf p)) [])

/-- One epic of the grouping loop (lines 1365-1408): place the epic under
each of its folders, or append it to the ungrouped bucket. -/
def groupStep (epicMap : List (String × List String))
    (i2f : List (String × List String))
    (acc : List (String × List (String × List String)) × List (String × List String))
    (ek : String) :
    List (String × List (String × List String)) × List (String × List String) :=
  if epicFoldersOf epicMap i2f ek ≠ [] then
    ((epicFoldersOf epicMap i2f ek).foldl
      (fun f2e fn => pushEpicData f2e fn (ek, lookupChildren epicMap ek)) acc.1, acc.2)
  else (acc.1, acc.2 ++ [(ek, lookupChildren epicMap ek)])

/-- Lines 1362-1408: group each epic under the top-level folders of its own
paths and of its member issues; an epic matching no folder goes to the
ungrouped bucket, in order. -/
def groupEpics (epicMap : List (String × List String))
    (i2f : List (String × List String)) (allEpicKeys : List String) :
    List (String × List (String × List String)) × List (String × List String) :=
  allEpicKeys.foldl (groupStep epicMap i2f) ([], [])

/-- Insertion sort with the string order, the result of
Object.keys(folderToEpicsMap).sort() on distinct keys. -/
def insStr (a : String) : List String → List String
  | [] => [a]
  | b :: bs => if a ≤ b then a :: b :: bs else b :: insStr a bs

def sortStr : List String → List String
  | [] => []
  | a :: as => insStr a (sortStr as)

/-- The per-issue step of an epic block: if (issueMap[issueKey])
buildTreeLines(...) — absent keys are skipped without touching the visited
set (lines 1441, 1478, 1510). -/
def renderStep (ctx : RenderCtx) (fuel : Nat) (v : List String) (k : String) :
    List String × List String :=
  if k ∈ ctx.present then walkF ctx fuel v k else ([], v)

/-- One epic task block: a fresh visited set, the first cap issues, shared
across the block. -/
def renderEpicBlock (ctx : RenderCtx) (fuel : Nat) (issues : List String)
    (cap : Nat) : List String :=
  (chainSteps (renderStep ctx fuel) (issues.take cap) []).1

/-- The folders section (lines 1411-1458): folder names sorted, epic header
always emitted, the task block only when the epic record exists (a missing
epic continues before the tree), display cap 20. -/
def renderFolderSection (ctx : RenderCtx) (fuel : Nat) (hasIssue : String → Bool)
    (f2e : List (String × List (String × List String))) : List String :=
  (sortStr (f2e.map (fun p => p.1))).foldl (fun out fn =>
    (lookupVals f2e fn).foldl (fun out ed =>
      if hasIssue ed.1 then
        out ++ [ed.1] ++ (if ed.2 ≠ [] then renderEpicBlock ctx fuel ed.2 20 else [])
      else out ++ [ed.1]) out) []

/-- The epics-without-folders section (lines 1461-1527): header always, task
block with display cap 30 in both the missing-record and the normal case. -/
def renderFreeSection (ctx : RenderCtx) (fuel : Nat)
    (free : List (String × List String)) : List String :=
  free.foldl (fun out ed =>
    out ++ [ed.1] ++ (if ed.2 ≠ [] then renderEpicBlock ctx fuel ed.2 30 else [])) []

/-- tasksWithoutEpic (lines 1530-1537): issueMap keys that are not group
keys, not of type Эпик, and have a falsy grouping field. -/
def tasksWithoutEpicOf (s : FState) (allEpicKeys : List String) : List String :=
  (s.issueMap.map (fun p => p.1)).filter (fun k =>
    !(allEpicKeys.contains k) &&
    (match s.issueMap.find? (fun p => p.1 == k) with
     | some p => (p.2.typName != some "Эпик") && !(entryEpicTruthy p.2)
     | none => true))

/-- rootTasks (lines 1540-1548): the tasks without epics that appear as a
child in neither adjacency map. -/
def rootTasksOf (s : FState) (allEpicKeys : List String) : List String :=
  (tasksWithoutEpicOf s allEpicKeys).filter (fun k =>
    !((s.coversMap.foldl (fun acc p => acc ++ p.2) []).contains k) &&
    !((s.parentMap.foldl (fun acc p => acc ++ p.2) []).contains k))

/-- The tasks-without-epics section (lines 1529-1568): one fresh visited
set, display cap 20, no per-key presence pre-check. -/
def renderRootTasks (ctx : RenderCtx) (fuel : Nat) (s : FState)
    (allEpicKeys : List String) : List String :=
  if (tasksWithoutEpicOf s allEpicKeys).isEmpty then []
  else
    if (rootTasksOf s allEpicKeys).isEmpty then []
    else (chainSteps (fun v k => walkF ctx fuel v k)
      ((rootTasksOf s allEpicKeys).take 20) []).1

/-- The observable outcome of one forest build: the rendered key sequence
(epic headers and tree nodes, in order), the single-key lookups issued, the
reported folder counters, the error strings, and the grouping outcome. -/
structure ForestResult where
  renderedKeys : List String
  lookups : List String
  foldersCount : Nat
  issuesWithFolders : Nat
  structureErrors : List String
  allEpicKeys : List String
  folderEpics : List (String × List (String × List String))
  freeEpics : List (String × List String)
deriving DecidableEq

/-- getIssueHierarchy end to end: assemble, overlay, group, render. -/
def forestBuild (issues epicSearch : List FIssue)
    (epicFetch : String → Option FIssue)
    (structRes : Except String (List SElement)) : ForestResult :=
  let a := forestAssemble issues epicSearch epicFetch
  let s := a.1
  let allEpicKeys := allEpicKeysOf s
  let o := overlayRun (fun k => hasKey s.issueMap k) allEpicKeys structRes
  let g := groupEpics s.epicMap o.2.1 allEpicKeys
  let ctx : RenderCtx := ⟨s.coversMap, s.parentMap, s.issueMap.map (fun p => p.1)⟩
  let fuel := s.issueMap.length + 2
  { renderedKeys :=
      renderFolderSection ctx fuel (fun k => hasKey s.issueMap k) g.1 ++
      renderFreeSection ctx fuel g.2 ++
      renderRootTasks ctx fuel s allEpicKeys,
    lookups := a.2,
    foldersCount := o.1.length,
    issuesWithFolders := o.2.1.length,
    structureErrors := o.2.2,
    allEpicKeys := allEpicKeys,
    folderEpics := g.1,
    freeEpics := g.2 }

/-!
## transitionIssue (lines 525-570) and completeIssue (lines 604-649)
-/

/-- One available workflow transition as returned by getIssueTransitions. -/
structure Transition where
  id : String
  name : String
  toName : String
deriving DecidableEq

/-- transitions.find(t => t.name.toLowerCase() === name.toLowerCase())
(lines 534-536). -/
def findTransition (ts : List Transition) (nm : String) : Option Transition :=
  ts.find? (fun t => strLower t.name == strLower nm)

/-- The thrown message of lines 538-541 after the catch wrapper of line 568
re-raises it. -/
def transitionErrorMsg (nm : String) (ts : List Transition) : String :=
  "Failed to transition issue: Transition \"" ++ nm ++
    "\" not found. Available transitions: " ++
    String.intercalate ", " (ts.map (fun t => t.name))

/-- Outcome of one transitionIssue call: the transition requests actually
sent to the tracker, and either the reported new status or the error. -/
structure TransitionOutcome where
  apiCalls : List (String × String × Option String)
  result : Except String String

/-- transitionIssue given the available transitions the tracker reported:
on a (case-insensitive) match, one transition request is sent and the
target status reported; otherwise nothing is sent and the error lists the
available transition names. -/
def transitionIssue (ts : List Transition) (issueKey nm : String)
    (comment : Option String) : TransitionOutcome :=
  match findTransition ts nm with
  | none => { apiCalls := [], result := Except.error (transitionErrorMsg nm ts) }
  | some t => { apiCalls := [(issueKey, t.id, comment)], result := Except.ok t.toName }

/-- IssueTracker.getLastIssue (part_001 lines 39-51): null when the tracker
file is absent or unreadable, data.issueKey || null otherwise. -/
def getLastIssue (fileData : Option String) : Option String :=
  match fileData with
  | none => none
  | some k => if k ≠ "" then some k else none

/-- How a completeIssue call resolves its target before touching the
tracker API. -/
inductive CompleteOutcome where
  | noLastIssue
  | confirmRequest (key : String)
  | proceed (key : String)
deriving DecidableEq

/-- Lines 604-656: the target-resolution phase of completeIssue.  The
second component lists remote tracker calls issued by the phase: none for
the two early returns, the initial getIssue for a resolved target. -/
def completeIssueStart (issueKey : Option String) (confirm : Bool)
    (fileData : Option String) : CompleteOutcome × List String :=
  if optTruthy issueKey then
    (.proceed (issueKey.getD ""), ["getIssue " ++ issueKey.getD ""])
  else
    match getLastIssue fileData with
    | none => (.noLastIssue, [])
    | some lk =>
      if !confirm then (.confirmRequest lk, [])
      else (.proceed lk, ["getIssue " ++ lk])

/-- Modelled from the spec: children(key) as section 4.2 words it — the
union of the three adjacency maps entries for the key, deduplicated,
concatenated in the fixed priority order GroupLink, Containment, Coverage.
For comparison against the childrenOf enumeration of the source. -/
def childrenSpecOf (epicMap coversMap parentMap : List (String × List String))
    (k : String) : List String :=
  jsSet (lookupChildren epicMap k ++ lookupChildren parentMap k ++
    lookupChildren coversMap k)

/-!
## Concrete instances used by the claims
-/

/-- A Containment link whose outward side carries the child c. -/
def exLinkParentOut (c : String) : Link :=
  ⟨"10600", "Parent-Child", "is child of", "is parent of", none, some ⟨c, none⟩⟩

/-- A Containment link whose inward side carries the parent p. -/
def exLinkParentIn (p : String) : Link :=
  ⟨"10600", "Parent-Child", "is child of", "is parent of", some ⟨p, none⟩, none⟩

/-- Rooted-mode repository: R1 is parent of C1 and C2; each child points
back at R1 and has one further child of its own (D1, D2). -/
def exEnvRooted : String → Option RIssue := fun k =>
  if k = "R1" then some ⟨none, [exLinkParentOut "C1", exLinkParentOut "C2"]⟩
  else if k = "C1" then some ⟨none, [exLinkParentIn "R1", exLinkParentOut "D1"]⟩
  else if k = "C2" then some ⟨none, [exLinkParentIn "R1", exLinkParentOut "D2"]⟩
  else if k = "D1" then some ⟨none, []⟩
  else if k = "D2" then some ⟨none, []⟩
  else none

/-- Forest query result in which T1 (grouped under E1) is parent of K, and
K itself is grouped under the second epic E2. -/
def exForestIssues : List FIssue :=
  [⟨"T1", some "Задача", some (.elStr "E1"), [exLinkParentOut "K"]⟩,
   ⟨"K", some "Задача", some (.elStr "E2"), []⟩]

/-- The two epics as the epic query returns them. -/
def exForestEpics : List FIssue :=
  [⟨"E1", some "Эпик", none, []⟩, ⟨"E2", some "Эпик", none, []⟩]

/-- Forest query result in which the referenced epic E1 is itself part of
the initial working set, while the epic query returns nothing. -/
def exLookupIssues : List FIssue :=
  [⟨"T1", some "Задача", some (.elStr "E1"), []⟩,
   ⟨"E1", some "Эпик", none, []⟩]

/-!
## Proofs
-/

theorem mem_jsSetAux {a : String} :
    ∀ (l seen : List String), a ∈ jsSetAux seen l ↔ a ∈ l ∧ a ∉ seen := by
  intro l
  induction l with
  | nil => intro seen; simp [jsSetAux]
  | cons x xs ih =>
    intro seen
    unfold jsSetAux
    by_cases hx : x ∈ seen
    · rw [if_pos hx, ih seen]
      constructor
      · intro h
        exact ⟨List.mem_cons_of_mem x h.1, h.2⟩
      · intro h
        rcases List.mem_cons.mp h.1 with h1 | h1
        · subst h1; exact absurd hx h.2
        · exact ⟨h1, h.2⟩
    · rw [if_neg hx]
      simp only [List.mem_cons, ih (x :: seen)]
      constructor
      · intro h
        rcases h with h | h
        · subst h; exact ⟨Or.inl rfl, hx⟩
        · exact ⟨Or.inr h.1, fun hs => h.2 (Or.inr hs)⟩
      · intro h
        rcases h.1 with h1 | h1
        · exact Or.inl h1
        · by_cases hax : a = x
          · exact Or.inl hax
          · exact Or.inr ⟨h1, fun hs => hs.elim hax h.2⟩

theorem mem_jsSet {a : String} {l : List String} : a ∈ jsSet l ↔ a ∈ l := by
  unfold jsSet
  rw [mem_jsSetAux]
  simp

theorem nodup_jsSetAux : ∀ (l seen : List String), (jsSetAux seen l).Nodup := by
  intro l
  induction l with
  | nil => intro seen; simp [jsSetAux]
  | cons x xs ih =>
    intro seen
    unfold jsSetAux
    by_cases hx : x ∈ seen
    · rw [if_pos hx]; exact ih seen
    · rw [if_neg hx]
      refine List.nodup_cons.mpr ⟨?_, ih (x :: seen)⟩
      intro hmem
      exact ((mem_jsSetAux xs (x :: seen)).mp hmem).2 (List.mem_cons_self x seen)

theorem nodup_jsSet (l : List String) : (jsSet l).Nodup := nodup_jsSetAux l []

theorem nodup_foldl_setAdd :
    ∀ (ks : List String) (acc : List String), acc.Nodup →
      (ks.foldl setAdd acc).Nodup := by
  intro ks
  induction ks with
  | nil => intro acc h; simpa using h
  | cons k ks ih =>
    intro acc h
    simp only [List.foldl_cons]
    apply ih
    unfold setAdd
    by_cases hk : k ∈ acc
    · simpa [hk] using h
    · simp only [hk, if_false]
      exact List.Nodup.append h (List.nodup_singleton k)
        (List.disjoint_singleton.mpr hk)

theorem walkInv_id (P : String → Prop) (v : List String) : WalkInv P v ([], v) := by
  refine ⟨fun x hx => hx, List.nodup_nil, fun x hx => absurd hx (List.not_mem_nil x), ?_⟩
  intro x hx hnx
  exact absurd hx hnx

theorem walkInv_comp (P : String → Prop) (v : List String)
    (r1 r2 : List String × List String)
    (h1 : WalkInv P v r1) (h2 : WalkInv P r1.2 r2) :
    WalkInv P v (r1.1 ++ r2.1, r2.2) := by
  obtain ⟨m1, n1, o1, c1⟩ := h1
  obtain ⟨m2, n2, o2, c2⟩ := h2
  refine ⟨fun x hx => m2 x (m1 x hx), ?_, ?_, ?_⟩
  · refine List.Nodup.append n1 n2 ?_
    intro x hx1 hx2
    exact (o2 x hx2).2.1 ((o1 x hx1).1)
  · intro x hx
    rcases List.mem_append.mp hx with hx | hx
    · exact ⟨m2 x (o1 x hx).1, (o1 x hx).2.1, (o1 x hx).2.2⟩
    · exact ⟨(o2 x hx).1, fun hv => (o2 x hx).2.1 (m1 x hv), (o2 x hx).2.2⟩
  · intro x hx hnv hp
    by_cases hx1 : x ∈ r1.2
    · exact List.mem_append.mpr (Or.inl (c1 x hx1 hnv hp))
    · exact List.mem_append.mpr (Or.inr (c2 x hx hx1 hp))

theorem chainSteps_inv (P : String → Prop)
    (step : List String → String → List String × List String)
    (hstep : ∀ v c, WalkInv P v (step v c)) :
    ∀ (cs : List String) (v : List String), WalkInv P v (chainSteps step cs v) := by
  intro cs
  induction cs with
  | nil => intro v; exact walkInv_id P v
  | cons c cs ih =>
    intro v
    show WalkInv P v ((step v c).1 ++ (chainSteps step cs (step v c).2).1,
      (chainSteps step cs (step v c).2).2)
    exact walkInv_comp P v _ _ (hstep v c) (ih (step v c).2)

theorem walkF_inv (ctx : RenderCtx) :
    ∀ (fuel : Nat) (v : List String) (k : String),
      WalkInv (· ∈ ctx.present) v (walkF ctx fuel v k) := by
  intro fuel
  induction fuel with
  | zero => intro v k; exact walkInv_id _ v
  | succ fuel ih =>
    intro v k
    rw [walkF]
    by_cases hv : k ∈ v
    · simpa [hv] using walkInv_id (· ∈ ctx.present) v
    · simp only [hv, if_false]
      by_cases hp : k ∈ ctx.present
      · simp only [hp, if_true]
        have hkids := chainSteps_inv (· ∈ ctx.present)
          (fun v c => walkF ctx fuel v c) (fun v c => ih v c)
          (childrenOf ctx k) (k :: v)
        obtain ⟨mk, nk, ok, ck⟩ := hkids
        refine ⟨?_, ?_, ?_, ?_⟩
        · intro x hx
          exact mk x (List.mem_cons_of_mem k hx)
        · refine List.nodup_cons.mpr ⟨?_, nk⟩
          intro hmem
          exact (ok k hmem).2.1 (List.mem_cons_self k v)
        · intro x hx
          rcases List.mem_cons.mp hx with hx | hx
          · subst hx
            exact ⟨mk x (List.mem_cons_self x v), hv, hp⟩
          · refine ⟨(ok x hx).1, ?_, (ok x hx).2.2⟩
            intro hxv
            exact (ok x hx).2.1 (List.mem_cons_of_mem k hxv)
        · intro x hx hnv hxp
          by_cases hxk : x = k
          · subst hxk; exact List.mem_cons_self x _
          · exact List.mem_cons_of_mem k
              (ck x hx (fun hm => (List.mem_cons.mp hm).elim hxk hnv) hxp)
      · simp only [hp, if_false]
        refine ⟨fun x hx => List.mem_cons_of_mem k hx, List.nodup_nil,
          fun x hx => absurd hx (List.not_mem_nil x), ?_⟩
        intro x hx hnv hxp
        rcases List.mem_cons.mp hx with hx | hx
        · subst hx; exact absurd hxp hp
        · exact absurd hx hnv

theorem walkF_nodup (ctx : RenderCtx) (fuel : Nat) (v : List String) (k : String) :
    (walkF ctx fuel v k).1.Nodup :=
  (walkF_inv ctx fuel v k).2.1

theorem walkF_mono (ctx : RenderCtx) (fuel : Nat) (v : List String) (k : String) :
    ∀ x ∈ v, x ∈ (walkF ctx fuel v k).2 :=
  fun x hx => (walkF_inv ctx fuel v k).1 x hx

/-- After walkF with at least one unit of fuel, the walked key itself is in
the visited set (either it already was, or it has just been added). -/
theorem walkF_self_mem (ctx : RenderCtx) (fuel : Nat) (v : List String) (k : String) :
    k ∈ (walkF ctx (fuel + 1) v k).2 := by
  rw [walkF]
  by_cases hv : k ∈ v
  · simp [hv]
  · simp only [hv, if_false]
    by_cases hp : k ∈ ctx.present
    · simp only [hp, if_true]
      exact chainSteps_inv (· ∈ ctx.present) _ (fun v c => walkF_inv ctx fuel v c)
        (childrenOf ctx k) (k :: v) |>.1 k (List.mem_cons_self k v)
    · simp [hp]

/-- The visited set is monotone across a whole chained loop. -/
theorem chainSteps_mono
    (step : List String → String → List String × List String)
    (hmono : ∀ v c x, x ∈ v → x ∈ (step v c).2) :
    ∀ (cs : List String) (v : List String) (x : String), x ∈ v →
      x ∈ (chainSteps step cs v).2 := by
  intro cs
  induction cs with
  | nil => intro v x hx; exact hx
  | cons c0 cs ih =>
    intro v x hx
    exact ih (step v c0).2 x (hmono v c0 x hx)

/-- Every key of the processed list ends up in the visited set, provided
each step records its key and is visited-monotone. -/
theorem chainSteps_marks
    (step : List String → String → List String × List String)
    (hself : ∀ v c, c ∈ (step v c).2)
    (hmono : ∀ v c x, x ∈ v → x ∈ (step v c).2) :
    ∀ (cs : List String) (v : List String) (c : String), c ∈ cs →
      c ∈ (chainSteps step cs v).2 := by
  intro cs
  induction cs with
  | nil => intro v c hc; exact absurd hc (List.not_mem_nil c)
  | cons c0 cs ih =>
    intro v c hc
    show c ∈ (chainSteps step cs (step v c0).2).2
    rcases List.mem_cons.mp hc with hc | hc
    · subst hc
      exact chainSteps_mono step hmono cs (step v c).2 c (hself v c)
    · exact ih (step v c0).2 c hc

theorem crawlRel_refl (s : CrawlState) : CrawlRel s s :=
  ⟨fun _ h => h, fun _ h => h⟩

theorem crawlRel_trans {s t u : CrawlState} (h1 : CrawlRel s t) (h2 : CrawlRel t u) :
    CrawlRel s u :=
  ⟨fun x hx => h2.1 x (h1.1 x hx), fun p hp => h2.2 p (h1.2 p hp)⟩

theorem mapOnly_pushCovers (pk ck : String) : MapOnly (pushCovers pk ck) :=
  fun _ => ⟨rfl, rfl, rfl⟩

theorem mapOnly_pushParent (pk ck : String) : MapOnly (pushParent pk ck) :=
  fun _ => ⟨rfl, rfl, rfl⟩

theorem mapOnly_pushEpic (ek key : String) : MapOnly (pushEpic ek key) :=
  fun _ => ⟨rfl, rfl, rfl⟩

theorem mapOnly_ok (env : String → Option RIssue) {upd : CrawlState → CrawlState}
    (hu : MapOnly upd) (st : CrawlState) (h : CrawlInv env st) :
    CrawlInv env (upd st) ∧ CrawlRel st (upd st) := by
  obtain ⟨hv, hl, hi⟩ := hu st
  refine ⟨⟨?_, ?_, ?_⟩, ?_, ?_⟩
  · rw [hl]; exact h.1
  · rw [hl, hv]; exact h.2.1
  · rw [hi]; exact h.2.2
  · rw [hv]; exact fun x hx => hx
  · rw [hi]; exact fun p hp => hp

theorem edgePhase_ok (env : String → Option RIssue)
    {step : String → CrawlState → CrawlState} (hstep : GoodStep env step)
    {upd : CrawlState → CrawlState} (hu : MapOnly upd)
    (pk ck rk : String) (s : CrawlState) (h : CrawlInv env s) :
    CrawlInv env (edgePhase step upd pk ck rk s) ∧
      CrawlRel s (edgePhase step upd pk ck rk s) := by
  unfold edgePhase
  split
  · have h1 := mapOnly_ok env hu s h
    split
    · have h2 := hstep rk (upd s) h1.1
      exact ⟨h2.1, crawlRel_trans h1.2 h2.2⟩
    · exact h1
  · exact ⟨h, crawlRel_refl s⟩

theorem procEpic_ok (env : String → Option RIssue)
    {step : String → CrawlState → CrawlState} (hstep : GoodStep env step)
    (inc : Bool) (key : String) (r : RIssue) (s : CrawlState) (h : CrawlInv env s) :
    CrawlInv env (procEpic step inc key r s) ∧ CrawlRel s (procEpic step inc key r s) := by
  unfold procEpic
  split
  · exact ⟨h, crawlRel_refl s⟩
  · split
    · split
      · rename_i el hel ek hek
        split
        · have h1 := mapOnly_ok env (mapOnly_pushEpic ek key) s h
          split
          · have h2 := hstep ek (pushEpic ek key s) h1.1
            exact ⟨h2.1, crawlRel_trans h1.2 h2.2⟩
          · exact h1
        · exact ⟨h, crawlRel_refl s⟩
      · exact ⟨h, crawlRel_refl s⟩
    · exact ⟨h, crawlRel_refl s⟩

theorem stubPhase_ok (env : String → Option RIssue)
    (os : Option LStub) (go : Bool) (act : LStub → CrawlState → CrawlState)
    (hact : ∀ o st, CrawlInv env st → CrawlInv env (act o st) ∧ CrawlRel st (act o st))
    (s : CrawlState) (h : CrawlInv env s) :
    CrawlInv env (stubPhase os go act s) ∧ CrawlRel s (stubPhase os go act s) := by
  unfold stubPhase
  match os with
  | none => exact ⟨h, crawlRel_refl s⟩
  | some o =>
    by_cases hc : go = true
    · simp only [hc, if_true]
      exact hact o s h
    · simp only [Bool.not_eq_true] at hc
      simp only [hc, Bool.false_eq_true, if_false]
      exact ⟨h, crawlRel_refl s⟩

theorem coversPart_ok (env : String → Option RIssue)
    {step : String → CrawlState → CrawlState} (hstep : GoodStep env step)
    (key : String) (l : Link) (s : CrawlState) (h : CrawlInv env s) :
    CrawlInv env (coversPart step key l s) ∧ CrawlRel s (coversPart step key l s) := by
  unfold coversPart
  split
  · have h1 := stubPhase_ok env l.outwardIssue (strContains (strLower l.outward) "covers")
      (fun o => edgePhase step (pushCovers key o.key) key o.key o.key)
      (fun o st hst => edgePhase_ok env hstep (mapOnly_pushCovers key o.key) _ _ _ st hst)
      s h
    have h2 := stubPhase_ok env l.inwardIssue (strContains (strLower l.inward) "covered by")
      (fun i => edgePhase step (pushCovers i.key key) i.key key i.key)
      (fun i st hst => edgePhase_ok env hstep (mapOnly_pushCovers i.key key) _ _ _ st hst)
      _ h1.1
    exact ⟨h2.1, crawlRel_trans h1.2 h2.2⟩
  · exact ⟨h, crawlRel_refl s⟩

theorem parentPart_ok (env : String → Option RIssue)
    {step : String → CrawlState → CrawlState} (hstep : GoodStep env step)
    (key : String) (l : Link) (s : CrawlState) (h : CrawlInv env s) :
    CrawlInv env (parentPart step key l s) ∧ CrawlRel s (parentPart step key l s) := by
  unfold parentPart
  split
  · have h1 := stubPhase_ok env l.outwardIssue (strContains (strLower l.outward) "is parent of")
      (fun o => edgePhase step (pushParent key o.key) key o.key o.key)
      (fun o st hst => edgePhase_ok env hstep (mapOnly_pushParent key o.key) _ _ _ st hst)
      s h
    have h2 := stubPhase_ok env l.inwardIssue (strContains (strLower l.inward) "is child of")
      (fun i => edgePhase step (pushParent i.key key) i.key key i.key)
      (fun i st hst => edgePhase_ok env hstep (mapOnly_pushParent i.key key) _ _ _ st hst)
      _ h1.1
    exact ⟨h2.1, crawlRel_trans h1.2 h2.2⟩
  · exact ⟨h, crawlRel_refl s⟩

theorem procLink_ok (env : String → Option RIssue)
    {step : String → CrawlState → CrawlState} (hstep : GoodStep env step)
    (key : String) (l : Link) (s : CrawlState) (h : CrawlInv env s) :
    CrawlInv env (procLink step key l s) ∧ CrawlRel s (procLink step key l s) := by
  unfold procLink
  have h1 := coversPart_ok env hstep key l s h
  have h2 := parentPart_ok env hstep key l _ h1.1
  exact ⟨h2.1, crawlRel_trans h1.2 h2.2⟩

theorem procLinks_ok (env : String → Option RIssue)
    {step : String → CrawlState → CrawlState} (hstep : GoodStep env step)
    (key : String) :
    ∀ (ls : List Link) (s : CrawlState), CrawlInv env s →
      CrawlInv env (procLinks step key ls s) ∧ CrawlRel s (procLinks step key ls s) := by
  intro ls
  induction ls with
  | nil => intro s h; exact ⟨h, crawlRel_refl s⟩
  | cons l ls ih =>
    intro s h
    have h1 := procLink_ok env hstep key l s h
    have h2 := ih _ h1.1
    exact ⟨h2.1, crawlRel_trans h1.2 h2.2⟩

theorem markVisit_ok (env : String → Option RIssue) (key : String) (s : CrawlState)
    (h : CrawlInv env s) (hv : key ∉ s.visited) :
    CrawlInv env (markVisit key s) ∧ CrawlRel s (markVisit key s) := by
  obtain ⟨hn, hlv, him⟩ := h
  refine ⟨⟨?_, ?_, him⟩, fun x hx => List.mem_cons_of_mem key hx, fun p hp => hp⟩
  · refine List.Nodup.append hn (List.nodup_singleton key) ?_
    exact List.disjoint_singleton.mpr (fun hk => hv (hlv key hk))
  · intro k hk
    rcases List.mem_append.mp hk with hk | hk
    · exact List.mem_cons_of_mem key (hlv k hk)
    · simp only [List.mem_singleton] at hk
      subst hk
      exact List.mem_cons_self k s.visited

theorem recordIssue_ok (env : String → Option RIssue) (key : String) (r : RIssue)
    (s : CrawlState) (h : CrawlInv env s) (henv : env key = some r) :
    CrawlInv env (recordIssue key r s) ∧ CrawlRel s (recordIssue key r s) := by
  obtain ⟨hn, hlv, him⟩ := h
  refine ⟨⟨hn, hlv, ?_⟩, fun x hx => hx, fun p hp => List.mem_append.mpr (Or.inl hp)⟩
  intro p hp
  rcases List.mem_append.mp hp with hp | hp
  · exact him p hp
  · simp only [List.mem_singleton] at hp
    subst hp
    exact henv

theorem crawl_ok (env : String → Option RIssue) (inc : Bool) :
    ∀ (gas : Nat) (key : String) (s : CrawlState), CrawlInv env s →
      CrawlInv env (crawl env inc gas key s) ∧ CrawlRel s (crawl env inc gas key s) := by
  intro gas
  induction gas with
  | zero =>
    intro key s h
    rw [crawl]
    exact ⟨h, crawlRel_refl s⟩
  | succ gas ih =>
    intro key s h
    have hstep : GoodStep env (fun k st => crawl env inc gas k st) :=
      fun k st hst => ih k st hst
    rw [crawl]
    by_cases hv : key ∈ s.visited
    · simp only [hv, if_true]
      exact ⟨h, crawlRel_refl s⟩
    · simp only [hv, if_false]
      cases henv : env key with
      | none => exact markVisit_ok env key s h hv
      | some r =>
        have h1 := markVisit_ok env key s h hv
        have h2 := recordIssue_ok env key r _ h1.1 henv
        have h3 := procEpic_ok env hstep inc key r _ h2.1
        have h4 := procLinks_ok env hstep key r.links _ h3.1
        exact ⟨h4.1, crawlRel_trans h1.2
          (crawlRel_trans h2.2 (crawlRel_trans h3.2 h4.2))⟩

theorem initialCrawlState_inv (env : String → Option RIssue) :
    CrawlInv env initialCrawlState :=
  ⟨List.nodup_nil, fun k hk => absurd hk (List.not_mem_nil k),
    fun p hp => absurd hp (List.not_mem_nil p)⟩

/-- If the starting fetch succeeds, the root record lands in the issue map
(and stays there: the map is append-only). -/
theorem crawl_root_recorded (env : String → Option RIssue) (inc : Bool)
    (gas : Nat) (key : String) (r : RIssue) (henv : env key = some r) :
    (key, r) ∈ (crawl env inc (gas + 1) key initialCrawlState).issueMap := by
  rw [crawl]
  have hv : key ∉ initialCrawlState.visited := List.not_mem_nil key
  simp only [hv, if_false, henv]
  have hstep : GoodStep env (fun k st => crawl env inc gas k st) :=
    fun k st hst => crawl_ok env inc gas k st hst
  have h1 := markVisit_ok env key initialCrawlState (initialCrawlState_inv env) hv
  have h2 := recordIssue_ok env key r _ h1.1 henv
  have h3 := procEpic_ok env hstep inc key r _ h2.1
  have h4 := procLinks_ok env hstep key r.links _ h3.1
  refine h4.2.2 (key, r) (h3.2.2 (key, r) ?_)
  show (key, r) ∈ (markVisit key initialCrawlState).issueMap ++ [(key, r)]
  exact List.mem_append.mpr (Or.inr (List.mem_singleton.mpr rfl))

theorem setAdd_nodup {l : List String} (h : l.Nodup) (k : String) :
    (setAdd l k).Nodup := by
  unfold setAdd
  by_cases hk : k ∈ l
  · simpa [hk] using h
  · simp only [hk, if_false]
    exact List.Nodup.append h (List.nodup_singleton k) (List.disjoint_singleton.mpr hk)

/-!
## Claim theorems
-/

/-- C2, counterexample.  The claim says children(key) is the union of the
three maps in the fixed order GroupLink, Containment, Coverage; in
particular a group node G with GroupLink edges to A and B has children(G) =
[A, B].  In the source, buildTreeLines enumerates children from coversMap
and parentMap only — Coverage before Containment — and never consults the
grouping map: for the group node G the code yields [], and for a node X
with Coverage child A and Containment child B the code yields [A, B] where
the claimed order would be [B, A]. -/
theorem claim_C2_counterexample :
    childrenSpecOf [("G", ["A", "B"])] [] [] "G" = ["A", "B"] ∧
    childrenOf ⟨[], [], ["G", "A", "B"]⟩ "G" = [] ∧
    childrenOf ⟨[("X", ["A"])], [("X", ["B"])], []⟩ "X" = ["A", "B"] ∧
    childrenSpecOf [] [("X", ["A"])] [("X", ["B"])] "X" = ["B", "A"] := by
  refine ⟨rfl, rfl, rfl, rfl⟩

/-- C2, amended.  The renderer enumerates the children of a key as the
union of the Coverage and Containment adjacency entries for the key only,
deduplicated keeping first occurrences, with Coverage entries first;
GroupLink children are not part of this enumeration (group members are
rendered by the separate per-epic section loop).  The enumeration is
duplicate-free and contains exactly the union of the two entries. -/
theorem claim_C2 (cm pm : List (String × List String)) (pres : List String)
    (k : String) :
    childrenOf ⟨cm, pm, pres⟩ k = jsSet (lookupChildren cm k ++ lookupChildren pm k) ∧
    (childrenOf ⟨cm, pm, pres⟩ k).Nodup ∧
    (∀ x, x ∈ childrenOf ⟨cm, pm, pres⟩ k ↔
      x ∈ lookupChildren cm k ∨ x ∈ lookupChildren pm k) := by
  refine ⟨rfl, nodup_jsSet _, ?_⟩
  intro x
  unfold childrenOf
  rw [mem_jsSet, List.mem_append]

/-- C3.  For any adjacency containing a Containment cycle A→B and B→A (both
nodes present), the tree walk from A terminates (walkF is total) and, with
fuel at least two, emits B exactly once and A exactly once — A is never
re-entered and B never duplicated. -/
theorem claim_C3 (cm pm : List (String × List String)) (pres : List String)
    (A B : String) (fuel : Nat) (_hAB : A ≠ B) (hA : A ∈ pres) (hB : B ∈ pres)
    (hBA : B ∈ lookupChildren pm A) (_hABc : A ∈ lookupChildren pm B) :
    (walkF ⟨cm, pm, pres⟩ (fuel + 2) [] A).1.count B = 1 ∧
    (walkF ⟨cm, pm, pres⟩ (fuel + 2) [] A).1.count A = 1 := by
  have hchild : B ∈ childrenOf ⟨cm, pm, pres⟩ A := by
    unfold childrenOf
    exact mem_jsSet.mpr (List.mem_append.mpr (Or.inr hBA))
  have hred : walkF ⟨cm, pm, pres⟩ (fuel + 2) [] A =
      (A :: (chainSteps (fun v c => walkF ⟨cm, pm, pres⟩ (fuel + 1) v c)
              (childrenOf ⟨cm, pm, pres⟩ A) [A]).1,
       (chainSteps (fun v c => walkF ⟨cm, pm, pres⟩ (fuel + 1) v c)
              (childrenOf ⟨cm, pm, pres⟩ A) [A]).2) := by
    rw [walkF]
    have hA2 : A ∈ RenderCtx.present ⟨cm, pm, pres⟩ := hA
    simp [hA2]
  have hmarks : B ∈ (chainSteps (fun v c => walkF ⟨cm, pm, pres⟩ (fuel + 1) v c)
      (childrenOf ⟨cm, pm, pres⟩ A) [A]).2 :=
    chainSteps_marks _ (fun v c => walkF_self_mem ⟨cm, pm, pres⟩ fuel v c)
      (fun v c x hx => walkF_mono ⟨cm, pm, pres⟩ (fuel + 1) v c x hx)
      (childrenOf ⟨cm, pm, pres⟩ A) [A] B hchild
  have hInv := walkF_inv ⟨cm, pm, pres⟩ (fuel + 2) [] A
  have hBout : B ∈ (walkF ⟨cm, pm, pres⟩ (fuel + 2) [] A).1 := by
    refine hInv.2.2.2 B ?_ (List.not_mem_nil B) hB
    rw [hred]
    exact hmarks
  have hAout : A ∈ (walkF ⟨cm, pm, pres⟩ (fuel + 2) [] A).1 := by
    rw [hred]
    exact List.mem_cons_self A _
  exact ⟨List.count_eq_one_of_mem hInv.2.1 hBout,
    List.count_eq_one_of_mem hInv.2.1 hAout⟩

/-- Witness for C3 at the minimal two-node Containment cycle. -/
theorem claim_C3_witness :
    (walkF ⟨[], [("A", ["B"]), ("B", ["A"])], ["A", "B"]⟩ 2 [] "A").1.count "B" = 1 ∧
    (walkF ⟨[], [("A", ["B"]), ("B", ["A"])], ["A", "B"]⟩ 2 [] "A").1.count "A" = 1 :=
  claim_C3 [] [("A", ["B"]), ("B", ["A"])] ["A", "B"] "A" "B" 0
    (by decide) (by decide) (by decide) (by decide) (by decide)

/-- C6.  Rooted mode with maxDepth = 1 on R1 with Containment children C1
and C2 (each with a further child): exactly the three nodes R1, C1, C2 are
rendered, the grandchildren are not expanded, and the call succeeds (no
NotFound); the lookups show the crawl stopped at the depth bound. -/
theorem claim_C6 :
    rootedBuild exEnvRooted "R1" (some 1) false =
      ⟨false, ["R1", "C1", "C2"], ["R1", "C1", "C2"]⟩ := by
  rfl

/-- C7.  The grouping field decodes once into a key-or-absent result
(groupKeyOf); the relationship pass emits a GroupLink edge exactly when a
truthy key is extractable (appending the issue under that group key) and
leaves the map untouched otherwise — never an error. -/
theorem claim_C7 (m : List (String × List String)) (key : String)
    (el? : Option EpicLink) :
    (groupKeyOf el? = none → forestEpicStep m key el? = m) ∧
    (∀ g, groupKeyOf el? = some g → forestEpicStep m key el? = mapPushPlain m g key) := by
  unfold groupKeyOf forestEpicStep
  match el? with
  | none => exact ⟨fun _ => rfl, fun g hg => by cases hg⟩
  | some el =>
    by_cases ht : jsTruthyEL el = true
    · simp only [ht, if_true]
      cases hp : epicKeyPass2 el with
      | none => exact ⟨fun _ => rfl, fun g hg => by cases hg⟩
      | some ek =>
        by_cases he : ek = ""
        · subst he
          simp only [if_pos rfl, ne_eq, not_true_eq_false, if_false]
          exact ⟨fun _ => trivial, fun g hg => by simp at hg⟩
        · simp only [if_neg he, ne_eq, he, not_false_eq_true, if_true]
          refine ⟨fun hc => by simp at hc, ?_⟩
          intro g hg
          simp at hg
          subst hg
          rfl
    · simp only [Bool.not_eq_true] at ht
      simp only [ht, Bool.false_eq_true, if_false]
      exact ⟨fun _ => trivial, fun g hg => by cases hg⟩

/-- Witness for C7: an object with neither key nor id field decodes through
string coercion and yields the edge. -/
theorem claim_C7_witness :
    forestEpicStep [] "T1" (some (.elObj none none "E9")) =
      mapPushPlain [] "E9" "T1" :=
  (claim_C7 [] "T1" (some (.elObj none none "E9"))).2 "E9" rfl

/-- C9.  transitionIssue matches the requested name case-insensitively
against the available transitions; when nothing matches, no transition
request is sent and the error lists the available transition names; when a
transition matches, exactly that request is sent. -/
theorem claim_C9 (ts : List Transition) (ik nm : String) (c : Option String) :
    (findTransition ts nm = none ↔ ∀ t ∈ ts, strLower t.name ≠ strLower nm) ∧
    (findTransition ts nm = none →
      (transitionIssue ts ik nm c).apiCalls = [] ∧
      (transitionIssue ts ik nm c).result = Except.error (transitionErrorMsg nm ts)) ∧
    (∀ t, findTransition ts nm = some t →
      (transitionIssue ts ik nm c).apiCalls = [(ik, t.id, c)] ∧
      (transitionIssue ts ik nm c).result = Except.ok t.toName ∧
      t ∈ ts ∧ strLower t.name = strLower nm) := by
  refine ⟨?_, ?_, ?_⟩
  · unfold findTransition
    rw [List.find?_eq_none]
    constructor
    · intro h t ht
      have := h t ht
      simpa using this
    · intro h t ht
      simpa using h t ht
  · intro h
    unfold transitionIssue
    rw [h]
    exact ⟨rfl, rfl⟩
  · intro t h
    unfold transitionIssue
    rw [h]
    refine ⟨rfl, rfl, List.mem_of_find?_eq_some h, ?_⟩
    have := List.find?_some h
    simpa using this

/-- Witness for C9: a request that matches no available transition sends
nothing and reports the listing error. -/
theorem claim_C9_witness :
    (transitionIssue [⟨"11", "Done", "Closed"⟩] "K-1" "Frob" none).apiCalls = [] ∧
    (transitionIssue [⟨"11", "Done", "Closed"⟩] "K-1" "Frob" none).result =
      Except.error (transitionErrorMsg "Frob" [⟨"11", "Done", "Closed"⟩]) :=
  (claim_C9 [⟨"11", "Done", "Closed"⟩] "K-1" "Frob" none).2.1 (by decide)

/-- C10.  completeIssue without an issueKey falls back to the last-viewed
issue: with none recorded it returns the explanatory outcome with no remote
call; with one recorded but no confirm flag it returns the confirmation
request, again with no remote call. -/
theorem claim_C10 (confirm : Bool) (fileData : Option String) :
    (getLastIssue fileData = none →
      completeIssueStart none confirm fileData = (CompleteOutcome.noLastIssue, [])) ∧
    (∀ k, getLastIssue fileData = some k → confirm = false →
      completeIssueStart none confirm fileData =
        (CompleteOutcome.confirmRequest k, [])) := by
  constructor
  · intro h
    unfold completeIssueStart
    rw [h]
    rfl
  · intro k h hc
    subst hc
    unfold completeIssueStart
    rw [h]
    rfl

/-- Witness for C10: a recorded last issue without the confirm flag yields
the confirmation request and no remote call. -/
theorem claim_C10_witness :
    completeIssueStart none false (some "RIVER-1") =
      (CompleteOutcome.confirmRequest "RIVER-1", []) :=
  (claim_C10 false (some "RIVER-1")).2 "RIVER-1" rfl rfl

/-- C1, counterexample.  In forest mode the visited set is created afresh
for every epic section (lines 1438, 1474, 1506, 1552), not once per call:
with T1 grouped under E1 and parent of K, and K itself grouped under E2,
the key K is rendered twice in one build — once inside the E1 section under
T1 and once as the member list of E2. -/
theorem claim_C1_counterexample :
    (forestBuild exForestIssues exForestEpics (fun _ => none)
        (Except.error "boom")).renderedKeys = ["E1", "T1", "K", "E2", "K"] ∧
    ¬ (forestBuild exForestIssues exForestEpics (fun _ => none)
        (Except.error "boom")).renderedKeys.Nodup := by
  refine ⟨rfl, ?_⟩
  rw [show (forestBuild exForestIssues exForestEpics (fun _ => none)
      (Except.error "boom")).renderedKeys = ["E1", "T1", "K", "E2", "K"] from rfl]
  decide

/-- C1, amended.  The dedup law is per rendering block, not global: within
one tree-rendering block — one epic task block, or the root-task block,
each of which threads a single fresh visited set — every key is emitted at
most once; and in rooted mode, which runs one walk with one visited set,
the whole rendered output is duplicate-free. -/
theorem claim_C1 :
    (∀ (ctx : RenderCtx) (fuel : Nat) (issues : List String) (cap : Nat),
      (renderEpicBlock ctx fuel issues cap).Nodup) ∧
    (∀ (ctx : RenderCtx) (fuel : Nat) (s : FState) (aE : List String),
      (renderRootTasks ctx fuel s aE).Nodup) ∧
    (∀ (env : String → Option RIssue) (rk : String) (d : Option Nat) (inc : Bool),
      (rootedBuild env rk d inc).renderedKeys.Nodup) := by
  refine ⟨?_, ?_, ?_⟩
  · intro ctx fuel issues cap
    have hstep : ∀ v c, WalkInv (· ∈ ctx.present) v (renderStep ctx fuel v c) := by
      intro v c
      unfold renderStep
      split
      · exact walkF_inv ctx fuel v c
      · exact walkInv_id _ v
    exact (chainSteps_inv _ _ hstep (issues.take cap) []).2.1
  · intro ctx fuel s aE
    unfold renderRootTasks
    split
    · exact List.nodup_nil
    · split
      · exact List.nodup_nil
      · exact (chainSteps_inv (· ∈ ctx.present) _
          (fun v c => walkF_inv ctx fuel v c) _ []).2.1
  · intro env rk d inc
    unfold rootedBuild
    split
    · exact List.nodup_nil
    · exact walkF_nodup _ _ _ _

theorem overlayRun_error_folderMap (hasIssue : String → Bool)
    (aK : List String) (e : String) :
    (overlayRun hasIssue aK (Except.error e)).1 = [] := by
  show (overlayErr e).1 = []
  unfold overlayErr
  split <;> rfl

theorem overlayRun_error_i2f (hasIssue : String → Bool)
    (aK : List String) (e : String) :
    (overlayRun hasIssue aK (Except.error e)).2.1 = [] := by
  show (overlayErr e).2.1 = []
  unfold overlayErr
  split <;> rfl

theorem overlayRun_ok_nil (hasIssue : String → Bool) (aK : List String) :
    overlayRun hasIssue aK (Except.ok []) = ([], [], []) := rfl

theorem foldl_fix {α β : Type} (l : List α) (b : β) :
    l.foldl (fun b _ => b) b = b := by
  induction l generalizing b with
  | nil => rfl
  | cons a l ih => exact ih b

theorem epicFoldersOf_i2f_nil (em : List (String × List String)) (ek : String) :
    epicFoldersOf em [] ek = [] :=
  foldl_fix (lookupChildren em ek) []

/-- With no issue-to-folder paths, every epic falls into the ungrouped
bucket with its member list, in order. -/
theorem groupStep_i2f_nil (em : List (String × List String))
    (acc : List (String × List (String × List String)) × List (String × List String))
    (ek : String) :
    groupStep em [] acc ek = (acc.1, acc.2 ++ [(ek, lookupChildren em ek)]) := by
  unfold groupStep
  rw [epicFoldersOf_i2f_nil]
  simp

theorem groupEpics_i2f_nil (em : List (String × List String)) (ks : List String) :
    groupEpics em [] ks = ([], ks.map (fun ek => (ek, lookupChildren em ek))) := by
  unfold groupEpics
  suffices h : ∀ acc, ks.foldl (groupStep em []) acc =
      (acc.1, acc.2 ++ ks.map (fun ek => (ek, lookupChildren em ek))) by
    simpa using h ([], [])
  induction ks with
  | nil => intro acc; simp
  | cons ek ks ih =>
    intro acc
    rw [List.foldl_cons, groupStep_i2f_nil, ih]
    simp

/-- C4.  With the folder topology unavailable, the forest build still
completes: the reported folder and issues-in-folders counts are zero, no
folder section exists, every epic appears in the group-only (ungrouped)
section with its member issues, and the rendered output is exactly the one
an empty topology yields. -/
theorem claim_C4 (issues epicSearch : List FIssue)
    (epicFetch : String → Option FIssue) (e : String) :
    (forestBuild issues epicSearch epicFetch (Except.error e)).foldersCount = 0 ∧
    (forestBuild issues epicSearch epicFetch (Except.error e)).issuesWithFolders = 0 ∧
    (forestBuild issues epicSearch epicFetch (Except.error e)).folderEpics = [] ∧
    (forestBuild issues epicSearch epicFetch (Except.error e)).freeEpics.map
        (fun p => p.1) =
      (forestBuild issues epicSearch epicFetch (Except.error e)).allEpicKeys ∧
    (forestBuild issues epicSearch epicFetch (Except.error e)).renderedKeys =
      (forestBuild issues epicSearch epicFetch (Except.ok [])).renderedKeys := by
  refine ⟨?_, ?_, ?_, ?_, ?_⟩
  · show (overlayRun _ _ (Except.error e)).1.length = 0
    rw [overlayRun_error_folderMap]
    rfl
  · show (overlayRun _ _ (Except.error e)).2.1.length = 0
    rw [overlayRun_error_i2f]
    rfl
  · show (groupEpics _ (overlayRun _ _ (Except.error e)).2.1 _).1 = []
    rw [overlayRun_error_i2f, groupEpics_i2f_nil]
  · show (groupEpics _ (overlayRun _ _ (Except.error e)).2.1 _).2.map (fun p => p.1) =
      allEpicKeysOf _
    rw [overlayRun_error_i2f, groupEpics_i2f_nil]
    simp only [List.map_map]
    exact List.map_id _
  · show renderFolderSection _ _ _
        (groupEpics _ (overlayRun _ _ (Except.error e)).2.1 _).1 ++
      renderFreeSection _ _
        (groupEpics _ (overlayRun _ _ (Except.error e)).2.1 _).2 ++
      renderRootTasks _ _ _ _ =
      renderFolderSection _ _ _
        (groupEpics _ (overlayRun _ _ (Except.ok [])).2.1 _).1 ++
      renderFreeSection _ _
        (groupEpics _ (overlayRun _ _ (Except.ok [])).2.1 _).2 ++
      renderRootTasks _ _ _ _
    rw [overlayRun_error_i2f, overlayRun_ok_nil]

/-- C5.  Rooted mode returns the NotFound outcome exactly when the starting
key itself is unfetchable; failures on any other key are absorbed (the
crawl continues and the build still renders). -/
theorem claim_C5 (env : String → Option RIssue) (rootKey : String)
    (d : Option Nat) (inc : Bool) :
    (rootedBuild env rootKey d inc).notFound = true ↔ env rootKey = none := by
  unfold rootedBuild
  cases hf : (rootedCrawl env rootKey d inc).issueMap.find?
      (fun p => p.1 == rootKey) with
  | none =>
    simp only [hf]
    constructor
    · intro _
      cases henv : env rootKey with
      | none => rfl
      | some r =>
        exfalso
        have hmem : (rootKey, r) ∈ (rootedCrawl env rootKey d inc).issueMap :=
          crawl_root_recorded env inc (maxDepthOf d) rootKey r henv
        have := List.find?_eq_none.mp hf (rootKey, r) hmem
        simp at this
    · intro _
      trivial
  | some p =>
    simp only [hf]
    have hp : p ∈ (rootedCrawl env rootKey d inc).issueMap :=
      List.mem_of_find?_eq_some hf
    have hpk : p.1 = rootKey := by
      have := List.find?_some hf
      simpa using this
    have hsound := (crawl_ok env inc (maxDepthOf d + 1) rootKey initialCrawlState
      (initialCrawlState_inv env)).1.2.2 p hp
    rw [hpk] at hsound
    constructor
    · intro hfalse
      cases hfalse
    · intro hnone
      rw [hnone] at hsound
      cases hsound

/-- C8, counterexample.  The epic-fetch loop excludes only keys returned by
the epic query, not keys already resolved in the working set: with E1 part
of the initial query result and referenced by T1, and the epic query
returning nothing, E1 still receives a single-key lookup. -/
theorem claim_C8_counterexample :
    (forestBuild exLookupIssues [] (fun _ => none)
        (Except.error "boom")).lookups = ["E1"] ∧
    "E1" ∈ exLookupIssues.map (fun i => i.key) := by
  exact ⟨rfl, by decide⟩

theorem collectEpicKey_nodup {acc : List String} (h : acc.Nodup)
    (el? : Option EpicLink) : (collectEpicKey acc el?).Nodup := by
  cases el? with
  | none => exact h
  | some el =>
    show (if jsTruthyEL el then
        (match epicKeyPass1 el with
         | some ek => if ek ≠ "" then setAdd acc ek else acc
         | none => acc)
      else acc).Nodup
    by_cases ht : jsTruthyEL el = true
    · simp only [ht, if_true]
      cases hp : epicKeyPass1 el with
      | none => exact h
      | some ek =>
        by_cases he : ek = ""
        · simp only [ne_eq, he, not_true_eq_false, if_false]
          exact h
        · simp only [ne_eq, he, not_false_eq_true, if_true]
          exact setAdd_nodup h ek
    · simp only [Bool.not_eq_true] at ht
      simp only [ht, Bool.false_eq_true, if_false]
      exact h

theorem nodup_foldl_collect :
    ∀ (l : List FIssue) (acc : List String), acc.Nodup →
      (l.foldl (fun acc i => collectEpicKey acc i.epicLink) acc).Nodup := by
  intro l
  induction l with
  | nil => intro acc h; exact h
  | cons i l ih =>
    intro acc h
    exact ih _ (collectEpicKey_nodup h i.epicLink)

theorem nodup_foldl_setAddKey :
    ∀ (l : List FIssue) (acc : List String), acc.Nodup →
      (l.foldl (fun acc e => setAdd acc e.key) acc).Nodup := by
  intro l
  induction l with
  | nil => intro acc h; exact h
  | cons e l ih =>
    intro acc h
    exact ih _ (setAdd_nodup h e.key)

/-- C8, amended.  Within one hierarchy-build call no key is ever the
subject of two single-key lookups: the forest epic-fetch loop iterates a
deduplicated key set, and the rooted crawl looks a key up only when
unvisited, marking it first.  (A key already in the working set can,
contrary to the claim, still receive one lookup — see the
counterexample.) -/
theorem claim_C8 :
    (∀ (issues epicSearch : List FIssue) (epicFetch : String → Option FIssue)
      (structRes : Except String (List SElement)),
      (forestBuild issues epicSearch epicFetch structRes).lookups.Nodup) ∧
    (∀ (env : String → Option RIssue) (rk : String) (d : Option Nat) (inc : Bool),
      (rootedBuild env rk d inc).lookups.Nodup) := by
  constructor
  · intro issues epicSearch epicFetch structRes
    show ((epicSearch.foldl (fun acc e => setAdd acc e.key)
        (issues.foldl (fun acc i => collectEpicKey acc i.epicLink) [])).filter
          _).Nodup
    exact List.Nodup.filter _
      (nodup_foldl_setAddKey epicSearch _
        (nodup_foldl_collect issues [] List.nodup_nil))
  · intro env rk d inc
    have hlk := (crawl_ok env inc (maxDepthOf d + 1) rk initialCrawlState
      (initialCrawlState_inv env)).1.1
    unfold rootedBuild
    split
    · exact hlk
    · exact hlk

end ExmuzzyMcp
